import Mathlib

/-!
Shallow embedding of the cluster-storage repository (src/index.ts together
with src/util.ts) and a verification of the frozen claims about it.

Modelling conventions:
* JSON-serializable values are modelled by the inductive type `JSON`
  (null, booleans, integers, strings and objects).  The repository only
  stores data that survives `JSON.stringify`/`JSON.parse`, and every claim
  uses such values, so `JSON.parse(JSON.stringify(v))` and lodash
  `cloneDeep` are the identity on the modelled values.
* `this.data` (the nested value tree manipulated through lodash
  `set`/`get`/`unset`/`has` with dotted string paths) is a `JSON` value;
  paths are lists of string segments, the result of splitting the dotted
  path on `.`.
* `this.lives` (the flat `{ [path]: number }` expiry index) is an
  association list from paths to timestamps.  JavaScript objects have
  unique keys and preserve insertion order; the list operations below
  update in place and so degenerate to exactly that behaviour on
  duplicate-free lists.
* `Date.now()` is a `Nat` parameter `now` supplied to each public call;
  the several reads of the clock inside one synchronous method are
  modelled as the same instant.
* Methods guarded by `checkState` return `Except Unit _`; `Except.error ()`
  models the thrown `ReferenceError`.  An erroring call produces no new
  state, matching the source where `checkState` throws before any write.
-/

namespace ClusterStorage

/-- JSON-serializable data, the value space of the store. -/
inductive JSON where
  | null : JSON
  | bool (b : Bool) : JSON
  | num (n : Int) : JSON
  | str (s : String) : JSON
  | obj (fields : List (String × JSON)) : JSON

/-- Field lookup in a JavaScript object (first matching key). -/
def findF : List (String × JSON) → String → Option JSON
  | [], _ => none
  | (k, v) :: rest, s => if k = s then some v else findF rest s

/-- Field update in a JavaScript object: overwriting an existing key keeps
its position, a new key is appended (JS insertion order). -/
def setF : List (String × JSON) → String → JSON → List (String × JSON)
  | [], s, v => [(s, v)]
  | (k, w) :: rest, s, v => if k = s then (s, v) :: rest else (k, w) :: setF rest s v

/-- Field removal (`delete obj[key]`). -/
def removeF : List (String × JSON) → String → List (String × JSON)
  | [], _ => []
  | (k, w) :: rest, s => if k = s then removeF rest s else (k, w) :: removeF rest s

/-- Node's `assert.deepStrictEqual` on JSON data, with explicit fuel: two
objects are equal when they have the same number of keys and every key of
the left one is present in the right one with a deeply equal value.  Each
recursive call descends into a strict subterm of the second argument, so
fuel `sizeOf a` is always sufficient. -/
def jsonEqF : Nat → JSON → JSON → Bool
  | 0, _, _ => false
  | _ + 1, .null, .null => true
  | _ + 1, .bool a, .bool b => a == b
  | _ + 1, .num a, .num b => a == b
  | _ + 1, .str a, .str b => a == b
  | n + 1, .obj fs, .obj gs =>
      fs.length == gs.length &&
      fs.all (fun kv =>
        match findF gs kv.1 with
        | some w => jsonEqF n kv.2 w
        | none => false)
  | _ + 1, .null, _ => false
  | _ + 1, .bool _, _ => false
  | _ + 1, .num _, _ => false
  | _ + 1, .str _, _ => false
  | _ + 1, .obj _, _ => false

mutual

/-- Size of a JSON value, used as fuel for `jsonEqF`. -/
def sizeJ : JSON → Nat
  | .null => 1
  | .bool _ => 1
  | .num _ => 1
  | .str _ => 1
  | .obj fs => 1 + sizeFs fs

/-- Combined size of an object's field list. -/
def sizeFs : List (String × JSON) → Nat
  | [] => 0
  | (_, v) :: rest => 1 + sizeJ v + sizeFs rest

end

/-- Structural equality of JSON data (`assert.deepStrictEqual`). -/
def jsonEq (a b : JSON) : Bool := jsonEqF (sizeJ a) a b

/-- src/util.ts `isDifferent`: `deepStrictEqual` succeeds iff not different. -/
def isDifferent (data origin : JSON) : Bool := !(jsonEq data origin)

/-- lodash `get(data, path)` restricted to string-segment paths: descends
through object fields; a missing field, a primitive blocking the path, or
the empty path yield `none` (lodash returns the default there). -/
def treeGet (d : JSON) (p : List String) : Option JSON :=
  match d, p with
  | .obj fs, [s] => findF fs s
  | .obj fs, s :: rest =>
      (match findF fs s with
       | some c => treeGet c rest
       | none => none)
  | _, _ => none

/-- lodash `set(data, path, v)`: writes `v` at `path`, creating
intermediate objects on demand; an intermediate field holding a
non-object is replaced by a fresh object; setting on a non-object root or
with an empty path leaves the value unchanged (as lodash does). -/
def treeSet (d : JSON) (p : List String) (v : JSON) : JSON :=
  match d, p with
  | d, [] => d
  | .obj fs, [s] => .obj (setF fs s v)
  | .obj fs, s :: rest =>
      .obj (setF fs s
        (treeSet
          (match findF fs s with
           | some (.obj gs) => .obj gs
           | _ => .obj [])
          rest v))
  | d, _ :: _ => d

/-- lodash `unset(data, path)`: deletes the field at `path`; if the parent
is missing or not an object the call is a no-op. -/
def treeUnset (d : JSON) (p : List String) : JSON :=
  match d, p with
  | d, [] => d
  | .obj fs, [s] => .obj (removeF fs s)
  | .obj fs, s :: rest =>
      (match findF fs s with
       | some c => .obj (setF fs s (treeUnset c rest))
       | none => .obj fs)
  | d, _ :: _ => d

/-- lodash `has(data, path)`: every segment must exist as an own property. -/
def treeHas (d : JSON) (p : List String) : Bool :=
  match d, p with
  | .obj fs, [s] => (findF fs s).isSome
  | .obj fs, s :: rest =>
      (match findF fs s with
       | some c => treeHas c rest
       | none => false)
  | _, _ => false

/-- Lookup in the flat expiry index `this.lives`. -/
def lookupA : List (List String × Nat) → List String → Option Nat
  | [], _ => none
  | (k, v) :: rest, s => if k = s then some v else lookupA rest s

/-- `this.lives[path] = e`: in-place update of an existing key, append of
a new one. -/
def setA : List (List String × Nat) → List String → Nat → List (List String × Nat)
  | [], s, e => [(s, e)]
  | (k, v) :: rest, s, e => if k = s then (s, e) :: rest else (k, v) :: setA rest s e

/-- `delete this.lives[path]`. -/
def removeA (l : List (List String × Nat)) (s : List String) : List (List String × Nat) :=
  l.filter (fun kv => !(kv.1 = s : Bool))

/-- The in-process state of a `Storage` instance (src/index.ts):
`data` and `lives` are the private fields of the class, `closed` is the
`state` symbol (`"connected"`/`"closed"`), and the three listener flags
record whether the `private:set`, `private:delete` and `private:sync`
handlers installed by the constructor are still attached.  The random
`originId` plays no role in the verified claims and is omitted. -/
structure Storage where
  data : JSON
  lives : List (List String × Nat)
  closed : Bool
  hasSetListener : Bool
  hasDeleteListener : Bool
  hasSyncListener : Bool

/-- A freshly constructed, connected store: empty data, empty expiry
index, all three private listeners attached. -/
def Storage.fresh : Storage :=
  { data := .obj [], lives := [], closed := false,
    hasSetListener := true, hasDeleteListener := true, hasSyncListener := true }

/-- The liveness test both `get` and `has` perform:
`!this.lives[path] || Date.now() < this.lives[path]`.  A missing entry is
falsy, and so is a (never produced by `set`) zero timestamp. -/
def liveCheck (lives : List (List String × Nat)) (p : List String) (now : Nat) : Bool :=
  match lookupA lives p with
  | none => true
  | some e => e == 0 || decide (now < e)

/-- Body of `Storage.get` after `checkState`: `null` unless the entry is
live, otherwise the tree value with default `null`; `cloneDeep` is the
identity on values. -/
def getCore (S : Storage) (p : List String) (now : Nat) : JSON :=
  if liveCheck S.lives p now then (treeGet S.data p).getD .null else .null

/-- Body of `Storage.has` after `checkState`. -/
def hasCore (S : Storage) (p : List String) (now : Nat) : Bool :=
  if liveCheck S.lives p now then treeHas S.data p else false

/-- `Storage.get` (src/index.ts line 151): fails on a closed store. -/
def Storage.get (S : Storage) (p : List String) (now : Nat) : Except Unit JSON :=
  if S.closed then .error () else .ok (getCore S p now)

/-- `Storage.has` (src/index.ts line 164): fails on a closed store. -/
def Storage.has (S : Storage) (p : List String) (now : Nat) : Except Unit Bool :=
  if S.closed then .error () else .ok (hasCore S p now)

/-- Body of `Storage.set` (src/index.ts lines 123-142) after `checkState`.
Returns the new state, the returned value and whether a `private:set`
broadcast was emitted.  `JSON.parse(JSON.stringify(data))` is the identity
on the modelled values. -/
def setCore (S : Storage) (p : List String) (v : JSON) (ttl now : Nat) :
    Storage × JSON × Bool :=
  let oldLife := lookupA S.lives p
  let oldData := getCore S p now
  let lives' := if ttl ≠ 0 then setA S.lives p (now + ttl) else S.lives
  if lookupA lives' p ≠ oldLife ∨ isDifferent v oldData = true then
    let S' := { S with data := treeSet S.data p v, lives := lives' }
    (S', getCore S' p now, true)
  else
    ({ S with lives := lives' }, oldData, false)

/-- `Storage.set`: fails on a closed store, otherwise runs `setCore`. -/
def Storage.set (S : Storage) (p : List String) (v : JSON) (ttl now : Nat) :
    Except Unit (Storage × JSON × Bool) :=
  if S.closed then .error () else .ok (setCore S p v ttl now)

/-- Body of `Storage.delete` (src/index.ts lines 175-181) after
`checkState`: unset the tree entry, drop the expiry key.  The
`private:delete` broadcast is emitted unconditionally in the source, hence
the constant `true` emission flag in `Storage.delete`. -/
def deleteCore (S : Storage) (p : List String) : Storage :=
  { S with data := treeUnset S.data p, lives := removeA S.lives p }

/-- `Storage.delete`: fails on a closed store; the second component
records that a `private:delete` event was broadcast. -/
def Storage.delete (S : Storage) (p : List String) : Except Unit (Storage × Bool) :=
  if S.closed then .error () else .ok (deleteCore S p, true)

/-- `Storage.gc` (src/index.ts lines 92-101): one expiry sweep at time
`now`.  The source iterates over the keys of `this.lives` in insertion
order and, for every entry with `this.lives[path] < now`, unsets the tree
value and deletes the expiry key; on the duplicate-free lists produced by
the API this is filtering the index and folding `unset` over the expired
paths in order. -/
def Storage.gc (S : Storage) (now : Nat) : Storage :=
  { S with
    data := (S.lives.filter (fun kv => decide (kv.2 < now))).foldl
      (fun d kv => treeUnset d kv.1) S.data,
    lives := S.lives.filter (fun kv => !decide (kv.2 < now)) }

/-- Content of the snapshot file written by `flush`
(`JSON.stringify(pick(this, ["lives", "data"]))`) and consumed by `read`. -/
structure Snapshot where
  data : JSON
  lives : List (List String × Nat)

/-- `Storage.flush` (src/index.ts lines 103-108): the snapshot it writes. -/
def flushContent (S : Storage) : Snapshot :=
  { data := S.data, lives := S.lives }

/-- Outcome of a `sync()` call: `success` (snapshot loaded), `timeout`
(the 5000 ms timer fired and the promise rejected), or `pending` (the
promise never settles). -/
inductive SyncOutcome where
  | success : SyncOutcome
  | timeout : SyncOutcome
  | pending : SyncOutcome
deriving DecidableEq

/-- Body of `Storage.sync` (src/index.ts lines 188-204) after
`checkState`.  `events` lists the `private:finishSync` events delivered to
this process, in delivery order, as (milliseconds since the call, response
id) pairs; `file` is the snapshot on disk when `read()` runs.  The
response listener is installed with `once`, so only the FIRST delivered
event ever reaches it; that handler runs `rid === id && resolve()` and
then unconditionally clears the 5000 ms rejection timer.  Hence:
no event at all, or a first event after the timer has fired, leaves the
rejection (`timeout`); a first event before the bound resolves and loads
the snapshot only when its id matches (`success`), and otherwise kills the
timer without resolving, so the call never settles (`pending`).  `read()`
(src/index.ts lines 110-113) replaces `data` and `lives` wholesale with
the file's content; it runs only on `success`, which the third component
(whether the file was read) records. -/
def syncCore (S : Storage) (id : String) (events : List (Nat × String))
    (file : Snapshot) : SyncOutcome × Storage × Bool :=
  match events with
  | [] => (.timeout, S, false)
  | (t, rid) :: _ =>
      if t < 5000 then
        if rid = id then
          (.success, { S with data := file.data, lives := file.lives }, true)
        else
          (.pending, S, false)
      else
        (.timeout, S, false)

/-- `Storage.sync`: fails on a closed store, otherwise runs the handshake. -/
def Storage.sync (S : Storage) (id : String) (events : List (Nat × String))
    (file : Snapshot) : Except Unit (SyncOutcome × Storage × Bool) :=
  if S.closed then .error () else .ok (syncCore S id events file)

/-- The state both `close()` and `destroy()` leave behind
(src/index.ts lines 207-234): closed, data and lives wiped, and only the
`private:set` listener removed (`removeAllListeners("private:set")`); the
`private:delete` and `private:sync` listeners stay attached. -/
def closedState (S : Storage) : Storage :=
  { S with closed := true, data := .obj [], lives := [], hasSetListener := false }

/-- `Storage.close`: when the process is the manager (`isMgr`) it first
flushes the still-populated store, then transitions to the closed state.
The second component is the snapshot written by that final flush, if any. -/
def Storage.close (S : Storage) (isMgr : Bool) :
    Except Unit (Storage × Option Snapshot) :=
  if S.closed then .error ()
  else .ok (closedState S, if isMgr then some (flushContent S) else none)

/-- `Storage.destroy`: no final flush; the persisted file is unlinked
(the `Bool` records the unlink). -/
def Storage.destroy (S : Storage) : Except Unit (Storage × Bool) :=
  if S.closed then .error () else .ok (closedState S, true)

/-- The `private:sync` handler installed by the constructor
(src/index.ts lines 63-71).  It runs whenever the listener is attached and
checks only `isManager()` — neither the closed state nor the origin id:
a manager-flagged process flushes its current in-memory store to the
snapshot file and broadcasts `private:finishSync` with the request id.
Returns the written snapshot and the emitted response, or `none` when the
handler does not answer. -/
def onSyncRequest (S : Storage) (isMgr : Bool) (reqId : String) :
    Option (Snapshot × String) :=
  if S.hasSyncListener && isMgr then some (flushContent S, reqId) else none

/-- The `(value, expiresAt)` pair `set(p, v, ttl)` is specified to store
(spec section 4.1): `now + ttl` for a positive ttl, no expiry otherwise.
Used to state claim C1's change-suppression antecedent. -/
def newExpiry (ttl now : Nat) : Option Nat :=
  if ttl ≠ 0 then some (now + ttl) else none

/-- The spec's liveness predicate (section 3): an entry is live iff its
expiry is unset or `now` is strictly before it.  Stated from the spec's
words, for comparison with the code's `liveCheck`. -/
def specLive (lives : List (List String × Nat)) (p : List String) (now : Nat) : Bool :=
  match lookupA lives p with
  | none => true
  | some e => decide (now < e)

/-- `isPref a b` iff path `a` is a prefix of path `b`. -/
def isPref : List String → List String → Bool
  | [], _ => true
  | _ :: _, [] => false
  | a :: as, b :: bs => a == b && isPref as bs

/-- Whether a JSON value is an object.  `this.data` always is: it starts
as `{}` and every operation keeps an object root. -/
def isObjB : JSON → Bool
  | .obj _ => true
  | _ => false

/-! ### Lemmas about object fields and the expiry index -/

theorem findF_setF_self (fs : List (String × JSON)) (s : String) (v : JSON) :
    findF (setF fs s v) s = some v := by
  induction fs with
  | nil => simp [setF, findF]
  | cons kv rest ih =>
      obtain ⟨k, w⟩ := kv
      by_cases h : k = s
      · simp [setF, findF, h]
      · simp [setF, findF, h, ih]

theorem findF_setF_ne (fs : List (String × JSON)) (s k : String) (v : JSON)
    (h : k ≠ s) : findF (setF fs s v) k = findF fs k := by
  have h' : ¬ s = k := Ne.symm h
  induction fs with
  | nil => simp [setF, findF, h']
  | cons kv rest ih =>
      obtain ⟨k₀, w⟩ := kv
      by_cases h₀ : k₀ = s
      · subst h₀
        simp [setF, findF, h']
      · simp only [setF, if_neg h₀, findF]
        by_cases h₁ : k₀ = k
        · simp [h₁]
        · simp [h₁, ih]

theorem findF_removeF_self (fs : List (String × JSON)) (s : String) :
    findF (removeF fs s) s = none := by
  induction fs with
  | nil => simp [removeF, findF]
  | cons kv rest ih =>
      obtain ⟨k, w⟩ := kv
      by_cases h : k = s
      · simp [removeF, h, ih]
      · simp [removeF, findF, h, ih]

theorem findF_removeF_ne (fs : List (String × JSON)) (s k : String)
    (h : k ≠ s) : findF (removeF fs s) k = findF fs k := by
  have h' : ¬ s = k := Ne.symm h
  induction fs with
  | nil => simp [removeF]
  | cons kv rest ih =>
      obtain ⟨k₀, w⟩ := kv
      by_cases h₀ : k₀ = s
      · subst h₀
        simp [removeF, findF, h', ih]
      · simp only [removeF, if_neg h₀, findF]
        by_cases h₁ : k₀ = k
        · simp [h₁]
        · simp [h₁, ih]

theorem lookupA_setA_self (l : List (List String × Nat)) (k : List String) (e : Nat) :
    lookupA (setA l k e) k = some e := by
  induction l with
  | nil => simp [setA, lookupA]
  | cons kv rest ih =>
      obtain ⟨k₀, v₀⟩ := kv
      by_cases h : k₀ = k
      · simp [setA, lookupA, h]
      · simp [setA, lookupA, h, ih]

theorem setA_eq_self (l : List (List String × Nat)) (k : List String) (e : Nat)
    (h : lookupA l k = some e) : setA l k e = l := by
  induction l with
  | nil => simp [lookupA] at h
  | cons kv rest ih =>
      obtain ⟨k₀, v₀⟩ := kv
      by_cases h₀ : k₀ = k
      · subst h₀
        simp [lookupA] at h
        simp [setA, h]
      · simp [lookupA, h₀] at h
        simp [setA, h₀, ih h]

theorem lookupA_removeA_self (l : List (List String × Nat)) (k : List String) :
    lookupA (removeA l k) k = none := by
  induction l with
  | nil => simp [removeA, lookupA]
  | cons kv rest ih =>
      obtain ⟨k₀, v₀⟩ := kv
      simp only [removeA, List.filter_cons] at ih ⊢
      by_cases h : k₀ = k
      · simpa [h] using ih
      · simpa [lookupA, h] using ih

theorem lookupA_removeA_ne (l : List (List String × Nat)) (k k' : List String)
    (h : k' ≠ k) : lookupA (removeA l k) k' = lookupA l k' := by
  induction l with
  | nil => simp [removeA]
  | cons kv rest ih =>
      obtain ⟨k₀, v₀⟩ := kv
      simp only [removeA, List.filter_cons] at ih ⊢
      have h' : ¬ k = k' := Ne.symm h
      by_cases h₀ : k₀ = k
      · simp [h₀, lookupA, h', ih]
      · by_cases h₁ : k₀ = k'
        · simp [h₀, lookupA, h₁, h, ih]
        · simp [h₀, lookupA, h₁, ih]

theorem lookupA_mem (l : List (List String × Nat)) (k : List String) (e : Nat)
    (h : lookupA l k = some e) : (k, e) ∈ l := by
  induction l with
  | nil => simp [lookupA] at h
  | cons kv rest ih =>
      obtain ⟨k₀, v₀⟩ := kv
      by_cases h₀ : k₀ = k
      · subst h₀
        simp [lookupA] at h
        simp [h]
      · simp [lookupA, h₀] at h
        simp [ih h]

theorem lookupA_eq_none_of_not_mem (l : List (List String × Nat)) (k : List String)
    (h : k ∉ l.map Prod.fst) : lookupA l k = none := by
  induction l with
  | nil => simp [lookupA]
  | cons kv rest ih =>
      obtain ⟨k₀, v₀⟩ := kv
      simp only [List.map_cons, List.mem_cons] at h
      push_neg at h
      have h' : ¬ k₀ = k := Ne.symm h.1
      simp [lookupA, h', ih h.2]

theorem lookupA_filter_none (l : List (List String × Nat)) (k : List String)
    (P : List String × Nat → Bool) (h : lookupA l k = none) :
    lookupA (l.filter P) k = none := by
  induction l with
  | nil => simp [lookupA]
  | cons kv rest ih =>
      obtain ⟨k₀, v₀⟩ := kv
      by_cases h₀ : k₀ = k
      · simp [lookupA, h₀] at h
      · simp only [lookupA, if_neg h₀] at h
        by_cases hp : P (k₀, v₀)
        · simp [List.filter_cons, hp, lookupA, h₀, ih h]
        · simp [List.filter_cons, hp, ih h]

theorem lookupA_filter (l : List (List String × Nat)) (k : List String) (e : Nat)
    (P : List String × Nat → Bool) (hnd : (l.map Prod.fst).Nodup)
    (h : lookupA l k = some e) :
    lookupA (l.filter P) k = if P (k, e) = true then some e else none := by
  induction l with
  | nil => simp [lookupA] at h
  | cons kv rest ih =>
      obtain ⟨k₀, v₀⟩ := kv
      simp only [List.map_cons, List.nodup_cons] at hnd
      by_cases h₀ : k₀ = k
      · subst h₀
        have hv : v₀ = e := by simpa [lookupA] using h
        subst hv
        by_cases hp : P (k₀, v₀)
        · simp [List.filter_cons, hp, lookupA]
        · have hrest : lookupA rest k₀ = none :=
            lookupA_eq_none_of_not_mem rest k₀ hnd.1
          simp [List.filter_cons, hp, lookupA_filter_none rest k₀ P hrest]
      · simp only [lookupA, if_neg h₀] at h
        by_cases hp : P (k₀, v₀)
        · simp [List.filter_cons, hp, lookupA, h₀, ih hnd.2 h]
        · simp [List.filter_cons, hp, ih hnd.2 h]

/-! ### Lemmas about the value tree -/

theorem treeGet_treeSet_self (fs : List (String × JSON)) (p : List String) (v : JSON)
    (hp : p ≠ []) : treeGet (treeSet (.obj fs) p v) p = some v := by
  induction p generalizing fs with
  | nil => exact absurd rfl hp
  | cons s rest ih =>
      cases rest with
      | nil => simp [treeSet, treeGet, findF_setF_self]
      | cons s' rest' =>
          cases hc : findF fs s with
          | none =>
              simp only [treeSet, treeGet, hc, findF_setF_self]
              exact ih ([]) (by simp)
          | some c =>
              cases c with
              | obj gs =>
                  simp only [treeSet, treeGet, hc, findF_setF_self]
                  exact ih gs (by simp)
              | null =>
                  simp only [treeSet, treeGet, hc, findF_setF_self]
                  exact ih ([]) (by simp)
              | bool b =>
                  simp only [treeSet, treeGet, hc, findF_setF_self]
                  exact ih ([]) (by simp)
              | num n =>
                  simp only [treeSet, treeGet, hc, findF_setF_self]
                  exact ih ([]) (by simp)
              | str s'' =>
                  simp only [treeSet, treeGet, hc, findF_setF_self]
                  exact ih ([]) (by simp)

theorem treeGet_some_treeHas (d : JSON) (p : List String) (v : JSON)
    (h : treeGet d p = some v) : treeHas d p = true := by
  induction p generalizing d with
  | nil => cases d <;> simp [treeGet] at h
  | cons s rest ih =>
      cases d with
      | obj fs =>
          cases rest with
          | nil =>
              simp only [treeGet] at h
              simp [treeHas, h]
          | cons s' rest' =>
              simp only [treeGet] at h
              cases hc : findF fs s with
              | none => rw [hc] at h; exact absurd h (by simp)
              | some c =>
                  rw [hc] at h
                  simp [treeHas, hc, ih c h]
      | null => simp [treeGet] at h
      | bool b => simp [treeGet] at h
      | num n => simp [treeGet] at h
      | str s'' => simp [treeGet] at h

theorem treeHas_treeSet_self (fs : List (String × JSON)) (p : List String) (v : JSON)
    (hp : p ≠ []) : treeHas (treeSet (.obj fs) p v) p = true :=
  treeGet_some_treeHas _ p v (treeGet_treeSet_self fs p v hp)

theorem isObjB_treeUnset (d : JSON) (p : List String) (h : isObjB d = true) :
    isObjB (treeUnset d p) = true := by
  cases d with
  | obj fs =>
      cases p with
      | nil => simp [treeUnset, isObjB]
      | cons s rest =>
          cases rest with
          | nil => simp [treeUnset, isObjB]
          | cons s' rest' =>
              cases hc : findF fs s <;> simp [treeUnset, hc, isObjB]
  | null => simp [isObjB] at h
  | bool b => simp [isObjB] at h
  | num n => simp [isObjB] at h
  | str s => simp [isObjB] at h

theorem treeGet_treeUnset_prefix (d : JSON) (p r : List String) (hp : p ≠ []) :
    treeGet (treeUnset d p) (p ++ r) = none := by
  induction p generalizing d with
  | nil => exact absurd rfl hp
  | cons s rest ih =>
      cases d with
      | obj fs =>
          cases rest with
          | nil =>
              cases r with
              | nil => simp [treeUnset, treeGet, findF_removeF_self]
              | cons r0 rs => simp [treeUnset, treeGet, findF_removeF_self]
          | cons s' rest' =>
              cases hc : findF fs s with
              | none => simp [treeUnset, hc, treeGet]
              | some c =>
                  simp only [treeUnset, hc, List.cons_append, treeGet,
                    findF_setF_self]
                  exact ih c (by simp)
      | null => cases rest <;> simp [treeUnset, treeGet]
      | bool b => cases rest <;> simp [treeUnset, treeGet]
      | num n => cases rest <;> simp [treeUnset, treeGet]
      | str s'' => cases rest <;> simp [treeUnset, treeGet]

theorem treeGet_treeUnset_none (d : JSON) (p q : List String)
    (h : treeGet d q = none) : treeGet (treeUnset d p) q = none := by
  induction p generalizing d q with
  | nil => simpa [treeUnset] using h
  | cons s rest ih =>
      cases d with
      | obj fs =>
          cases q with
          | nil =>
              cases rest with
              | nil => simp [treeUnset, treeGet]
              | cons s' rest' =>
                  cases hc : findF fs s <;> simp [treeUnset, hc, treeGet]
          | cons q0 qs =>
              cases rest with
              | nil =>
                  by_cases hq : q0 = s
                  · subst hq
                    cases qs <;>
                      simp [treeUnset, treeGet, findF_removeF_self]
                  · cases qs with
                    | nil =>
                        simp only [treeGet] at h
                        simp [treeUnset, treeGet, findF_removeF_ne fs s q0 hq, h]
                    | cons q1 qs' =>
                        cases hc : findF fs q0 with
                        | none =>
                            simp [treeUnset, treeGet,
                              findF_removeF_ne fs s q0 hq, hc]
                        | some c =>
                            simp only [treeGet, hc] at h
                            simp [treeUnset, treeGet,
                              findF_removeF_ne fs s q0 hq, hc, h]
              | cons s' rest' =>
                  cases hc : findF fs s with
                  | none => simpa [treeUnset, hc] using h
                  | some c =>
                      by_cases hq : q0 = s
                      · subst hq
                        cases qs with
                        | nil =>
                            simp only [treeGet, hc] at h
                            exact Option.noConfusion h
                        | cons q1 qs' =>
                            simp only [treeGet, hc] at h
                            simp [treeUnset, hc, treeGet, findF_setF_self,
                              ih c (q1 :: qs') h]
                      · cases qs with
                        | nil =>
                            simp only [treeGet] at h
                            simp [treeUnset, hc, treeGet,
                              findF_setF_ne fs s q0 _ hq, h]
                        | cons q1 qs' =>
                            cases hc' : findF fs q0 with
                            | none =>
                                simp [treeUnset, hc, treeGet,
                                  findF_setF_ne fs s q0 _ hq, hc']
                            | some c' =>
                                simp only [treeGet, hc'] at h
                                simp [treeUnset, hc, treeGet,
                                  findF_setF_ne fs s q0 _ hq, hc', h]
      | null => simpa [treeUnset] using h
      | bool b => simpa [treeUnset] using h
      | num n => simpa [treeUnset] using h
      | str s'' => simpa [treeUnset] using h

theorem treeGet_treeUnset_incomp (d : JSON) (p q : List String)
    (h1 : isPref p q = false) (h2 : isPref q p = false) :
    treeGet (treeUnset d p) q = treeGet d q := by
  induction p generalizing d q with
  | nil => simp [isPref] at h1
  | cons s rest ih =>
      cases q with
      | nil => simp [isPref] at h2
      | cons q0 qs =>
          cases d with
          | obj fs =>
              by_cases hq : q0 = s
              · subst hq
                simp only [isPref, beq_self_eq_true, Bool.true_and] at h1 h2
                cases rest with
                | nil => simp [isPref] at h1
                | cons s' rest' =>
                    cases qs with
                    | nil => simp [isPref] at h2
                    | cons q1 qs' =>
                        cases hc : findF fs q0 with
                        | none => simp [treeUnset, hc]
                        | some c =>
                            simp [treeUnset, hc, treeGet, findF_setF_self,
                              ih c (q1 :: qs') h1 h2]
              · cases rest with
                | nil =>
                    cases qs <;>
                      simp [treeUnset, treeGet, findF_removeF_ne fs s q0 hq]
                | cons s' rest' =>
                    cases hc : findF fs s with
                    | none => simp [treeUnset, hc]
                    | some c =>
                        cases qs <;>
                          simp [treeUnset, hc, treeGet,
                            findF_setF_ne fs s q0 _ hq]
          | null => cases rest <;> simp [treeUnset]
          | bool b => cases rest <;> simp [treeUnset]
          | num n => cases rest <;> simp [treeUnset]
          | str s'' => cases rest <;> simp [treeUnset]

/-! ### Lemmas about the garbage-collection fold -/

theorem foldUnset_none (l : List (List String × Nat)) (d : JSON) (q : List String)
    (h : treeGet d q = none) :
    treeGet (l.foldl (fun d kv => treeUnset d kv.1) d) q = none := by
  induction l generalizing d with
  | nil => simpa using h
  | cons kv rest ih =>
      exact ih (treeUnset d kv.1) (treeGet_treeUnset_none d kv.1 q h)

theorem foldUnset_mem_none (l : List (List String × Nat)) (d : JSON)
    (q : List String) (hq : q ≠ []) (h : q ∈ l.map Prod.fst) :
    treeGet (l.foldl (fun d kv => treeUnset d kv.1) d) q = none := by
  induction l generalizing d with
  | nil => simp at h
  | cons kv rest ih =>
      simp only [List.map_cons, List.mem_cons] at h
      rcases h with h | h
      · have hbase : treeGet (treeUnset d kv.1) q = none := by
          rw [← h]
          have := treeGet_treeUnset_prefix d q [] hq
          simpa using this
        exact foldUnset_none rest (treeUnset d kv.1) q hbase
      · exact ih (treeUnset d kv.1) h

theorem foldUnset_incomp (l : List (List String × Nat)) (d : JSON)
    (q : List String)
    (h : ∀ kv ∈ l, isPref kv.1 q = false ∧ isPref q kv.1 = false) :
    treeGet (l.foldl (fun d kv => treeUnset d kv.1) d) q = treeGet d q := by
  induction l generalizing d with
  | nil => simp
  | cons kv rest ih =>
      have hkv := h kv (by simp)
      have hrest : ∀ kv' ∈ rest, isPref kv'.1 q = false ∧ isPref q kv'.1 = false :=
        fun kv' hm => h kv' (by simp [hm])
      calc treeGet ((kv :: rest).foldl (fun d kv => treeUnset d kv.1) d) q
          = treeGet (rest.foldl (fun d kv => treeUnset d kv.1) (treeUnset d kv.1)) q := by
            simp
        _ = treeGet (treeUnset d kv.1) q := ih (treeUnset d kv.1) hrest
        _ = treeGet d q := treeGet_treeUnset_incomp d kv.1 q hkv.1 hkv.2

/-! ### Small bridges between the code's tests and the spec's wording -/

theorem liveCheck_eq_specLive (lives : List (List String × Nat)) (p : List String)
    (now : Nat) (h0 : lookupA lives p ≠ some 0) :
    liveCheck lives p now = specLive lives p now := by
  unfold liveCheck specLive
  cases he : lookupA lives p with
  | none => rfl
  | some e =>
      cases e with
      | zero => exact absurd he h0
      | succ e' => simp

theorem setCore_closed (S : Storage) (p : List String) (v : JSON) (ttl now : Nat) :
    ((setCore S p v ttl now).1).closed = S.closed := by
  simp only [setCore]
  split <;> split <;> rfl

theorem setCore_lives (S : Storage) (p : List String) (v : JSON) (ttl now : Nat) :
    ((setCore S p v ttl now).1).lives =
      (if ttl ≠ 0 then setA S.lives p (now + ttl) else S.lives) := by
  simp only [setCore]
  split <;> split <;> rfl

/-- A `set` call whose (value, expiry) pair coincides with the stored one
takes the suppressed branch: no state change, the current value is
returned, no broadcast. -/
theorem setCore_noop (S : Storage) (p : List String) (v w : JSON) (ttl now : Nat)
    (hw : treeGet S.data p = some w) (hjw : jsonEq v w = true)
    (hexp : newExpiry ttl now = lookupA S.lives p) :
    setCore S p v ttl now = (S, w, false) := by
  by_cases ht : ttl = 0
  · subst ht
    have hnone : lookupA S.lives p = none := by simpa [newExpiry] using hexp.symm
    have hlive : liveCheck S.lives p now = true := by simp [liveCheck, hnone]
    have hold : getCore S p now = w := by simp [getCore, hlive, hw]
    simp [setCore, hold, isDifferent, hjw]
  · have hpos : 0 < ttl := Nat.pos_of_ne_zero ht
    have hsome : lookupA S.lives p = some (now + ttl) := by
      simpa [newExpiry, ht] using hexp.symm
    have hlt : now < now + ttl := Nat.lt_add_of_pos_right hpos
    have hlive : liveCheck S.lives p now = true := by
      simp [liveCheck, hsome, hlt]
    have hold : getCore S p now = w := by simp [getCore, hlive, hw]
    have hsetA : setA S.lives p (now + ttl) = S.lives := setA_eq_self _ _ _ hsome
    simp [setCore, ht, hsetA, hold, isDifferent, hjw]

/-- A `set` call that emits no broadcast leaves the state untouched. -/
theorem setCore_no_emit (S S₂ : Storage) (q : List String) (v r : JSON) (u now : Nat)
    (h : setCore S q v u now = (S₂, r, false)) : S₂ = S := by
  by_cases hu : u = 0
  · subst hu
    simp only [setCore, ne_eq, not_true_eq_false, if_false, ite_false] at h
    split at h
    · simp at h
    · simp only [Prod.mk.injEq] at h
      exact h.1.symm
  · simp only [setCore, if_pos hu, ne_eq] at h
    split at h
    · simp at h
    · next hcond =>
        push_neg at hcond
        have heq : lookupA (setA S.lives q (now + u)) q = lookupA S.lives q := hcond.1
        rw [lookupA_setA_self] at heq
        have hsetA : setA S.lives q (now + u) = S.lives :=
          setA_eq_self _ _ _ heq.symm
        rw [hsetA] at h
        simp only [Prod.mk.injEq] at h
        exact h.1.symm

/-! ### Concrete stores and snapshots used by witnesses and counterexamples -/

/-- A connected store holding the permanent entry `a = 1`. -/
def sampleOne : Storage :=
  { data := .obj [("a", .num 1)], lives := [], closed := false,
    hasSetListener := true, hasDeleteListener := true, hasSyncListener := true }

/-- A connected store holding `x = 1` with expiry 9. -/
def sampleX : Storage :=
  { data := .obj [("x", .num 1)], lives := [(["x"], 9)], closed := false,
    hasSetListener := true, hasDeleteListener := true, hasSyncListener := true }

/-- A snapshot whose tree differs from `sampleX`'s. -/
def snapY : Snapshot := { data := .obj [("y", .num 2)], lives := [] }

/-- State after `set("bar.greeting", "Hi", 1000)` at time 0 on a fresh store
(written with path segments `b`, `g`). -/
def stageA : Storage :=
  { data := .obj [("b", .obj [("g", .str "Hi")])], lives := [(["b", "g"], 1000)],
    closed := false, hasSetListener := true, hasDeleteListener := true,
    hasSyncListener := true }

/-- State after `delete("b")` on `stageA`: the subtree is gone but the
expiry recorded under `b.g` survives. -/
def stageB : Storage :=
  { data := .obj [], lives := [(["b", "g"], 1000)], closed := false,
    hasSetListener := true, hasDeleteListener := true, hasSyncListener := true }

/-- State after `set("b.g", "Yo", 0)` at time 2000 on `stageB`: the fresh
permanent value sits in the tree under the stale expiry. -/
def stageC : Storage :=
  { data := .obj [("b", .obj [("g", .str "Yo")])], lives := [(["b", "g"], 1000)],
    closed := false, hasSetListener := true, hasDeleteListener := true,
    hasSyncListener := true }

/-! ### Claim C1 -/

/-- C1, counterexample: "a broadcast 'set' or 'delete' event is emitted
only when the call actually changed the store" fails in the code for both
event kinds, at concrete inputs.

Delete: on an empty connected store, `delete("a")` changes nothing —
there is no entry at `a` — yet the source emits the `private:delete`
broadcast unconditionally (src/index.ts line 179): the resulting state
equals the initial one while the emission flag is `true`.

Set: `set` compares the new value against `this.get(path)`, the
liveness-FILTERED current value (src/index.ts line 127), not against the
raw tree value.  Reach `stageC` from a fresh store by
`set("b.g", "Hi", 1000)`, `delete("b")`, then `set("b.g", "Yo")` at time
2000 (the three chain equations below): `stageC` holds the raw tree value
`"Yo"` at `b.g` under a stale expired expiry.  Calling
`set("b.g", "Yo")` again at time 2000 sees `oldData = null` (the entry is
expired), takes the write branch, re-stores the identical value and
emits a `private:set` broadcast — while the resulting state is literally
equal to `stageC`.  A 'set' broadcast with no change to the store. -/
theorem c1_cx :
    Storage.delete Storage.fresh ["a"] = .ok (Storage.fresh, true) ∧
    Storage.set Storage.fresh ["b", "g"] (.str "Hi") 1000 0 =
      .ok (stageA, .str "Hi", true) ∧
    Storage.delete stageA ["b"] = .ok (stageB, true) ∧
    Storage.set stageB ["b", "g"] (.str "Yo") 0 2000 = .ok (stageC, .null, true) ∧
    Storage.set stageC ["b", "g"] (.str "Yo") 0 2000 = .ok (stageC, .null, true) :=
  ⟨rfl, rfl, rfl, rfl, rfl⟩

/-- C1 (amended): a `set(p, v, ttl)` whose new `(value, expiresAt)` pair
(per the spec, `now+ttl` for positive ttl, no expiry otherwise) equals the
currently stored pair — structural equality on the value, exact equality
on the expiry — is a no-op: it returns the current value, writes nothing
to the store or the expiry index, and emits no broadcast.  The claim's
converse direction, "a broadcast is emitted only when the call actually
changed the store", is false in the code for both event kinds (see
`c1_cx`): `delete` broadcasts unconditionally, even when it removed
nothing, and `set` — comparing against the liveness-filtered current
value — re-stores and broadcasts a value structurally equal to the raw
tree value whenever the existing entry is expired but unswept.  What does
hold of broadcasts is the retained direction proved here: a `set` call
that emits no broadcast left the store unchanged. -/
theorem c1_change_suppression (S S₂ : Storage) (p q q2 : List String)
    (v vq w r : JSON) (ttl u now : Nat)
    (hconn : S.closed = false)
    (hw : treeGet S.data p = some w)
    (hjw : jsonEq v w = true)
    (hexp : newExpiry ttl now = lookupA S.lives p)
    (hnoemit : Storage.set S q2 vq u now = .ok (S₂, r, false)) :
    Storage.set S p v ttl now = .ok (S, w, false) ∧
    S₂ = S ∧
    Storage.delete S q = .ok (deleteCore S q, true) := by
  refine ⟨?_, ?_, ?_⟩
  · simp [Storage.set, hconn, setCore_noop S p v w ttl now hw hjw hexp]
  · simp only [Storage.set, hconn, Bool.false_eq_true, if_false,
      Except.ok.injEq] at hnoemit
    exact setCore_no_emit S S₂ q2 vq r u now hnoemit
  · simp [Storage.delete, hconn]

/-- C1, witness: a store holding the permanent entry `a = 1`; setting the
same value with ttl 0 suppresses the write and the broadcast, and a
delete of the absent path `z` still broadcasts. -/
theorem c1_witness :
    Storage.set sampleOne ["a"] (.num 1) 0 5 = .ok (sampleOne, .num 1, false) ∧
    sampleOne = sampleOne ∧
    Storage.delete sampleOne ["z"] = .ok (deleteCore sampleOne ["z"], true) :=
  c1_change_suppression sampleOne sampleOne ["a"] ["z"] ["a"]
    (.num 1) (.num 1) (.num 1) (.num 1) 0 0 5
    rfl rfl rfl rfl rfl

/-! ### Claim C2 -/

/-- C2, counterexample: `sync()` on a connected store whose only delivered
`private:finishSync` response carries a foreign id at 1000 ms — so no
matching response arrives within the 5000 ms bound — does NOT fail with
the sync-timeout error: the `once` listener consumes the event, runs
`rid === id && resolve()` (a no-op) and unconditionally clears the timer,
so the call never settles.  The claimed timeout rejection never happens. -/
theorem c2_cx :
    Storage.sync sampleX "a" [(1000, "b")] snapY = .ok (.pending, sampleX, false) ∧
    SyncOutcome.pending ≠ SyncOutcome.timeout := ⟨rfl, by decide⟩

/-- C2 (amended): `sync()` fails with the sync-timeout error when no
`private:finishSync` response at all (matching or not) is delivered before
the 5000 ms bound — a non-matching earlier response instead cancels the
timer and leaves the call pending forever — and in every non-`success`
outcome the in-memory store (value tree and expiry index) is exactly what
it was before the call and the snapshot file is not read. -/
theorem c2_timeout_on_silence (S : Storage) (id : String)
    (events events2 : List (Nat × String)) (file : Snapshot)
    (out : SyncOutcome × Storage × Bool)
    (hconn : S.closed = false)
    (hlate : ∀ te ∈ events, 5000 ≤ te.1)
    (hout : Storage.sync S id events2 file = .ok out)
    (hns : out.1 ≠ .success) :
    Storage.sync S id events file = .ok (.timeout, S, false) ∧
    out.2.1 = S ∧ out.2.2 = false := by
  constructor
  · cases events with
    | nil => simp [Storage.sync, hconn, syncCore]
    | cons te rest =>
        obtain ⟨t, rid⟩ := te
        have h5 : ¬ t < 5000 := by
          have := hlate (t, rid) (by simp)
          omega
        simp [Storage.sync, hconn, syncCore, h5]
  · simp only [Storage.sync, hconn, Bool.false_eq_true, if_false,
      Except.ok.injEq] at hout
    cases events2 with
    | nil =>
        rw [← hout]
        exact ⟨rfl, rfl⟩
    | cons te rest =>
        obtain ⟨t, rid⟩ := te
        by_cases h5 : t < 5000
        · by_cases hid : rid = id
          · exfalso
            apply hns
            rw [← hout]
            simp [syncCore, h5, hid]
          · rw [← hout]
            simp [syncCore, h5, hid]
        · rw [← hout]
          simp [syncCore, h5]

/-- C2, witness: with the single (late, foreign) response at 6000 ms the
call times out and leaves the store untouched. -/
theorem c2_witness :
    Storage.sync sampleX "a" [(6000, "b")] snapY = .ok (.timeout, sampleX, false) ∧
    sampleX = sampleX ∧ (false : Bool) = false :=
  c2_timeout_on_silence sampleX "a" [(6000, "b")] [(6000, "b")] snapY
    (.timeout, sampleX, false) rfl (by simp) rfl (by decide)

/-! ### Claim C3 -/

/-- C3, counterexample: the requester's own response id `a` is delivered
at 2 ms, well before the timeout, but a foreign response arrived first at
1 ms and consumed the `once` listener; the snapshot is never read and the
store keeps its old content instead of the file's, refuting the claim for
a matching response that is not the first one delivered. -/
theorem c3_cx :
    Storage.sync sampleX "a" [(1, "b"), (2, "a")] snapY =
      .ok (.pending, sampleX, false) ∧
    sampleX.data = .obj [("x", .num 1)] ∧ snapY.data = .obj [("y", .num 2)] :=
  ⟨rfl, rfl, rfl⟩

/-- C3 (amended): when the FIRST `private:finishSync` event delivered to a
connected store carries the call's own request id and arrives before the
5000 ms bound, `sync()` cancels the timer and loads the snapshot file,
replacing both the value tree and the expiry index wholesale with the
file's content — no entry of the prior in-memory state survives unless it
is in the snapshot. -/
theorem c3_first_match_loads (S : Storage) (id : String) (t : Nat)
    (rest : List (Nat × String)) (file : Snapshot)
    (hconn : S.closed = false) (ht : t < 5000) :
    Storage.sync S id ((t, id) :: rest) file =
      .ok (.success, { S with data := file.data, lives := file.lives }, true) := by
  simp [Storage.sync, hconn, syncCore, ht]

/-- C3, witness: a prompt matching response replaces `sampleX`'s tree and
index with `snapY`'s. -/
theorem c3_witness :
    Storage.sync sampleX "a" [(10, "a")] snapY =
      .ok (.success,
        { sampleX with data := snapY.data, lives := snapY.lives }, true) :=
  c3_first_match_loads sampleX "a" 10 [] snapY rfl (by decide)

/-! ### Claim C4 -/

/-- State after `set("a", 1, 100)` at time 0 on a fresh store. -/
def ttlStore : Storage :=
  { data := .obj [("a", .num 1)], lives := [(["a"], 100)], closed := false,
    hasSetListener := true, hasDeleteListener := true, hasSyncListener := true }

/-- State after a further `set("a", 2, 0)` at time 0: the value is
rewritten but the old expiry 100 is left in force. -/
def ttlStore2 : Storage :=
  { data := .obj [("a", .num 2)], lives := [(["a"], 100)], closed := false,
    hasSetListener := true, hasDeleteListener := true, hasSyncListener := true }

/-- C4, counterexample: the entry at `a` carries expiry 100 from an
earlier `set("a", 1, 100)`; `set("a", 2, 0)` stores the new value but —
because `if (ttl)` skips the expiry write and nothing clears the old
one — the entry is NOT permanent: at time 100 `get` returns `null` and
`has` is `false` although no delete ever ran and the value still sits in
the tree.  This refutes "with ttl = 0 stores a permanent entry ...
regardless of any TTL the entry at p carried before the call". -/
theorem c4_cx :
    Storage.set Storage.fresh ["a"] (.num 1) 100 0 = .ok (ttlStore, .num 1, true) ∧
    Storage.set ttlStore ["a"] (.num 2) 0 0 = .ok (ttlStore2, .num 2, true) ∧
    treeGet ttlStore2.data ["a"] = some (.num 2) ∧
    Storage.get ttlStore2 ["a"] 100 = .ok .null ∧
    Storage.has ttlStore2 ["a"] 100 = .ok false :=
  ⟨rfl, rfl, rfl, rfl, rfl⟩

/-- C4 (amended): `set(p, v, ttl)` with positive ttl records expiry
`now + ttl`; with ttl = 0 the expiry index entry for `p` is left exactly
as it was, so the entry is permanent only when `p` carried no expiry
before the call — in that case, for a non-null value, `get(p)` returns a
value structurally equal to `v` and `has(p)` is `true` at every later
time until an explicit delete. -/
theorem c4_ttl_semantics (S S₁ S₀ : Storage) (p : List String) (v r₁ r₀ : JSON)
    (b₁ b₀ : Bool) (ttl now later : Nat)
    (hconn : S.closed = false) (hp : p ≠ []) (ht : ttl ≠ 0)
    (hobj : isObjB S.data = true)
    (hnone : lookupA S.lives p = none) (hv : jsonEq v .null = false)
    (h1 : Storage.set S p v ttl now = .ok (S₁, r₁, b₁))
    (h0 : Storage.set S p v 0 now = .ok (S₀, r₀, b₀)) :
    lookupA S₁.lives p = some (now + ttl) ∧
    lookupA S₀.lives p = none ∧
    Storage.get S₀ p later = .ok (getCore S₀ p later) ∧
    (getCore S₀ p later = v ∨ jsonEq v (getCore S₀ p later) = true) ∧
    Storage.has S₀ p later = .ok true := by
  simp only [Storage.set, hconn, Bool.false_eq_true, if_false,
    Except.ok.injEq] at h1 h0
  have hS₁ : S₁ = (setCore S p v ttl now).1 := by rw [h1]
  have hlives₁ : lookupA S₁.lives p = some (now + ttl) := by
    rw [hS₁, setCore_lives, if_pos ht, lookupA_setA_self]
  obtain ⟨fs, hfs⟩ : ∃ fs, S.data = .obj fs := by
    cases hd : S.data <;> simp [hd, isObjB] at hobj ⊢
  have hlive : liveCheck S.lives p now = true := by simp [liveCheck, hnone]
  have hliveL : liveCheck S.lives p later = true := by simp [liveCheck, hnone]
  simp only [setCore, ne_eq, not_true_eq_false, if_false, ite_false,
    reduceIte] at h0
  split at h0
  · -- the value changed: the tree is overwritten, the index untouched
    simp only [Prod.mk.injEq] at h0
    obtain ⟨hS₀, hr₀, hb₀⟩ := h0
    have hcl : S₀.closed = false := by rw [← hS₀]; exact hconn
    have hdata : S₀.data = treeSet S.data p v := by rw [← hS₀]
    have hlv : S₀.lives = S.lives := by rw [← hS₀]
    have hget : getCore S₀ p later = v := by
      simp [getCore, hlv, hliveL, hdata, hfs, treeGet_treeSet_self fs p v hp]
    refine ⟨hlives₁, by rw [hlv]; exact hnone, by simp [Storage.get, hcl], ?_, ?_⟩
    · exact Or.inl hget
    · have : treeHas S₀.data p = true := by
        rw [hdata, hfs]
        exact treeHas_treeSet_self fs p v hp
      simp [Storage.has, hcl, hasCore, hlv, hliveL, this]
  · -- suppressed write: the state is literally unchanged
    next hcond =>
      push_neg at hcond
      have hjeq : jsonEq v (getCore S p now) = true := by
        have := hcond.2
        simp [isDifferent] at this
        exact this
      simp only [Prod.mk.injEq] at h0
      obtain ⟨hS₀, hr₀, hb₀⟩ := h0
      have hSeq : S₀ = S := by
        rw [← hS₀]
      have hgetS : getCore S p later = getCore S p now := by
        simp [getCore, hlive, hliveL]
      have hnn : getCore S p now ≠ .null := by
        intro hh
        rw [hh] at hjeq
        rw [hjeq] at hv
        exact Bool.noConfusion hv
      refine ⟨hlives₁, by rw [hSeq]; exact hnone, by simp [Storage.get, hSeq, hconn], ?_, ?_⟩
      · right
        rw [hSeq, hgetS]
        exact hjeq
      · obtain ⟨w, hw⟩ : ∃ w, treeGet S.data p = some w := by
          cases htg : treeGet S.data p with
          | none =>
              exfalso
              apply hnn
              simp [getCore, hlive, htg]
          | some w => exact ⟨w, rfl⟩
        have : treeHas S.data p = true := treeGet_some_treeHas S.data p w hw
        simp [Storage.has, hSeq, hconn, hasCore, hlive, hliveL, this]

/-- State after `set("a", 7)` (no ttl) on a fresh store. -/
def sevenStore : Storage :=
  { data := .obj [("a", .num 7)], lives := [], closed := false,
    hasSetListener := true, hasDeleteListener := true, hasSyncListener := true }

/-- C4, witness: `set("a", 7, 3)` at time 0 records expiry 3, while
`set("a", 7, 0)` on the fresh store leaves no expiry, and the stored 7 is
readable at the much later time 99. -/
theorem c4_witness :
    lookupA (Storage.lives ⟨.obj [("a", .num 7)], [(["a"], 3)], false,
      true, true, true⟩) ["a"] = some 3 ∧
    lookupA sevenStore.lives ["a"] = none ∧
    Storage.get sevenStore ["a"] 99 = .ok (getCore sevenStore ["a"] 99) ∧
    (getCore sevenStore ["a"] 99 = .num 7 ∨
      jsonEq (.num 7) (getCore sevenStore ["a"] 99) = true) ∧
    Storage.has sevenStore ["a"] 99 = .ok true :=
  c4_ttl_semantics Storage.fresh
    ⟨.obj [("a", .num 7)], [(["a"], 3)], false, true, true, true⟩
    sevenStore ["a"] (.num 7) (.num 7) (.num 7) true true 3 0 99
    rfl (by decide) (by decide) rfl rfl rfl rfl rfl

/-! ### Claim C5 -/

/-- A store whose single entry expires exactly at time 10. -/
def edgeStore : Storage :=
  { data := .obj [("a", .num 1)], lives := [(["a"], 10)], closed := false,
    hasSetListener := true, hasDeleteListener := true, hasSyncListener := true }

/-- C5, counterexample: the sweep condition in the source is
`this.lives[path] < now` — strict.  Sweeping `edgeStore` at exactly its
expiry time 10 removes nothing: the entry with `e = now` survives both the
tree and the index, refuting "removed iff e ≤ now". -/
theorem c5_cx :
    Storage.gc edgeStore 10 = edgeStore ∧
    lookupA edgeStore.lives ["a"] = some 10 ∧
    treeGet edgeStore.data ["a"] = some (.num 1) :=
  ⟨rfl, rfl, rfl⟩

/-- C5 (amended): the sweep removes exactly the entries whose expiry is
set and strictly less than `now`: an expired path loses both its index
entry and its whole subtree in the tree, a path with `now ≤ e` keeps its
index entry, and the value at any path that shares no prefix with any
expired path is unchanged (the sweep unsets whole subtrees, so
descendants of an expired path die with it and ancestors see their object
shrink). -/
theorem c5_sweep_exact (S : Storage) (now : Nat) (q1 q2 q3 : List String)
    (e1 e3 : Nat)
    (hnd : (S.lives.map Prod.fst).Nodup)
    (h1 : lookupA S.lives q1 = some e1) (he1 : e1 < now) (hq1 : q1 ≠ [])
    (h3 : lookupA S.lives q3 = some e3) (he3 : ¬ e3 < now)
    (h2 : ∀ kv ∈ S.lives, kv.2 < now →
      (isPref kv.1 q2 = false ∧ isPref q2 kv.1 = false)) :
    lookupA (Storage.gc S now).lives q1 = none ∧
    lookupA (Storage.gc S now).lives q3 = some e3 ∧
    treeGet (Storage.gc S now).data q1 = none ∧
    treeGet (Storage.gc S now).data q2 = treeGet S.data q2 := by
  refine ⟨?_, ?_, ?_, ?_⟩
  · rw [show (Storage.gc S now).lives
        = S.lives.filter (fun kv => !decide (kv.2 < now)) from rfl]
    rw [lookupA_filter S.lives q1 e1 _ hnd h1]
    simp [he1]
  · rw [show (Storage.gc S now).lives
        = S.lives.filter (fun kv => !decide (kv.2 < now)) from rfl]
    rw [lookupA_filter S.lives q3 e3 _ hnd h3]
    simp [he3]
  · have hmem : (q1, e1) ∈ S.lives.filter (fun kv => decide (kv.2 < now)) := by
      rw [List.mem_filter]
      exact ⟨lookupA_mem S.lives q1 e1 h1, by simpa using he1⟩
    have hmem' : q1 ∈ (S.lives.filter (fun kv => decide (kv.2 < now))).map Prod.fst :=
      List.mem_map_of_mem Prod.fst hmem
    exact foldUnset_mem_none _ S.data q1 hq1 hmem'
  · apply foldUnset_incomp
    intro kv hkv
    rw [List.mem_filter] at hkv
    exact h2 kv hkv.1 (by simpa using hkv.2)

/-- A store with one expired entry (`a`, expiry 5), one live entry
(`b`, expiry 20) and one permanent entry `c`, swept at time 10. -/
def sweepStore : Storage :=
  { data := .obj [("a", .num 1), ("b", .num 2), ("c", .num 3)],
    lives := [(["a"], 5), (["b"], 20)], closed := false,
    hasSetListener := true, hasDeleteListener := true, hasSyncListener := true }

/-- C5, witness: sweeping `sweepStore` at time 10 removes exactly the
expired `a` and preserves both `b`'s index entry and `c`'s value. -/
theorem c5_witness :
    lookupA (Storage.gc sweepStore 10).lives ["a"] = none ∧
    lookupA (Storage.gc sweepStore 10).lives ["b"] = some 20 ∧
    treeGet (Storage.gc sweepStore 10).data ["a"] = none ∧
    treeGet (Storage.gc sweepStore 10).data ["c"] = treeGet sweepStore.data ["c"] :=
  c5_sweep_exact sweepStore 10 ["a"] ["c"] ["b"] 5 20
    (by decide) rfl (by decide) (by decide) rfl (by decide) (by decide)

/-! ### Claim C6 -/

/-- State after `set("a", null, 100)` at time 0 on a fresh store: a live
entry whose stored value is `null`. -/
def nullStore : Storage :=
  { data := .obj [("a", .null)], lives := [(["a"], 100)], closed := false,
    hasSetListener := true, hasDeleteListener := true, hasSyncListener := true }

/-- C6, counterexample: `set("a", null, 100)` really stores `null` in the
tree (the write goes through because the expiry changed), so at time 1
the entry at `a` exists (`has` confirms it) and is live, yet `get`
returns `null` — refuting "get(p) returns null iff no entry exists at p
or the entry at p is not live". -/
theorem c6_cx :
    Storage.set Storage.fresh ["a"] .null 100 0 = .ok (nullStore, .null, true) ∧
    treeGet nullStore.data ["a"] = some .null ∧
    specLive nullStore.lives ["a"] 1 = true ∧
    Storage.get nullStore ["a"] 1 = .ok .null ∧
    Storage.has nullStore ["a"] 1 = .ok true :=
  ⟨rfl, rfl, rfl, rfl, rfl⟩

/-- C6 (amended): on a connected store whose expiry entry at `p` is not
the never-produced timestamp 0, `get(p)` returns `null` iff no entry
exists at `p`, or the stored value is itself `null`, or the entry is not
live (live iff the expiry is unset or `now` is strictly before it); and
`has(p)` is `true` iff an entry exists at `p` (even a null-valued one)
and is live.  In particular an expired entry is reported absent by both
even before any sweep has removed it. -/
theorem c6_absent_iff (S : Storage) (p : List String) (now : Nat)
    (hconn : S.closed = false) (h0 : lookupA S.lives p ≠ some 0) :
    Storage.get S p now = .ok (getCore S p now) ∧
    (getCore S p now = .null ↔
      (treeGet S.data p = none ∨ treeGet S.data p = some .null ∨
        specLive S.lives p now = false)) ∧
    Storage.has S p now = .ok (hasCore S p now) ∧
    (hasCore S p now = true ↔
      (treeHas S.data p = true ∧ specLive S.lives p now = true)) := by
  have hls : liveCheck S.lives p now = specLive S.lives p now :=
    liveCheck_eq_specLive S.lives p now h0
  refine ⟨by simp [Storage.get, hconn], ?_, by simp [Storage.has, hconn], ?_⟩
  · unfold getCore
    rw [hls]
    cases hsl : specLive S.lives p now
    · simp
    · cases htg : treeGet S.data p with
      | none => simp
      | some w => simp
  · unfold hasCore
    rw [hls]
    cases hsl : specLive S.lives p now
    · simp
    · simp

/-- C6, witness: the sample store with the permanent entry `a = 1`. -/
theorem c6_witness :
    Storage.get sampleOne ["a"] 0 = .ok (getCore sampleOne ["a"] 0) ∧
    (getCore sampleOne ["a"] 0 = .null ↔
      (treeGet sampleOne.data ["a"] = none ∨
        treeGet sampleOne.data ["a"] = some .null ∨
        specLive sampleOne.lives ["a"] 0 = false)) ∧
    Storage.has sampleOne ["a"] 0 = .ok (hasCore sampleOne ["a"] 0) ∧
    (hasCore sampleOne ["a"] 0 = true ↔
      (treeHas sampleOne.data ["a"] = true ∧
        specLive sampleOne.lives ["a"] 0 = true)) :=
  c6_absent_iff sampleOne ["a"] 0 rfl (by decide)

/-! ### Claim C7 -/

/-- C7, counterexample: starting from a fresh store,
`set("b.g", "Hi", 1000)` then `delete("b")` leaves a stale expiry under
`b.g`; at time 2000 the call `set("b.g", "Yo")` writes `"Yo"` into the
tree but both its own return value and the immediately following
`get("b.g")` are `null`, not a value structurally equal to `"Yo"` —
refuting "for all paths p and values v, set(p, v) followed immediately by
get(p) returns a value structurally equal to v". -/
theorem c7_cx :
    Storage.set Storage.fresh ["b", "g"] (.str "Hi") 1000 0 =
      .ok (stageA, .str "Hi", true) ∧
    Storage.delete stageA ["b"] = .ok (stageB, true) ∧
    Storage.set stageB ["b", "g"] (.str "Yo") 0 2000 = .ok (stageC, .null, true) ∧
    Storage.get stageC ["b", "g"] 2000 = .ok .null ∧
    jsonEq (.str "Yo") .null = false :=
  ⟨rfl, rfl, rfl, rfl, rfl⟩

/-- C7 (amended): provided the expiry recorded at `p` (if any) has not
already passed at call time, `set(p, v)` (default ttl 0) followed
immediately by `get(p)` returns a value structurally equal to `v`, and
`set` itself returns exactly the value `get` then reports — the caller
observes what is retrievable, not the raw input.  (Deep copies are
modelled as values, so JavaScript reference identity is outside this
model; the `cloneDeep`/JSON round-trip in the source is what makes the
returned value a fresh object there.) -/
theorem c7_set_then_get (S S' : Storage) (p : List String) (v r : JSON) (b : Bool)
    (now : Nat)
    (hconn : S.closed = false) (hp : p ≠ []) (hobj : isObjB S.data = true)
    (hlive : liveCheck S.lives p now = true)
    (hset : Storage.set S p v 0 now = .ok (S', r, b)) :
    Storage.get S' p now = .ok r ∧
    (r = v ∨ jsonEq v r = true) := by
  simp only [Storage.set, hconn, Bool.false_eq_true, if_false,
    Except.ok.injEq] at hset
  obtain ⟨fs, hfs⟩ : ∃ fs, S.data = .obj fs := by
    cases hd : S.data <;> simp [hd, isObjB] at hobj ⊢
  simp only [setCore, ne_eq, not_true_eq_false, if_false, ite_false,
    reduceIte] at hset
  split at hset
  · simp only [Prod.mk.injEq] at hset
    obtain ⟨hS', hr, hb⟩ := hset
    have hcl : S'.closed = false := by rw [← hS']; exact hconn
    have hget : getCore S' p now = v := by
      rw [← hS']
      simp [getCore, hlive, hfs, treeGet_treeSet_self fs p v hp]
    have hrv : r = v := by
      rw [← hr, hS']
      exact hget
    refine ⟨?_, Or.inl hrv⟩
    rw [hrv, ← hget]
    simp [Storage.get, hcl]
  · next hcond =>
      push_neg at hcond
      have hjeq : jsonEq v (getCore S p now) = true := by
        have := hcond.2
        simp [isDifferent] at this
        exact this
      simp only [Prod.mk.injEq] at hset
      obtain ⟨hS', hr, hb⟩ := hset
      have hSeq : S' = S := by rw [← hS']
      refine ⟨?_, Or.inr (by rw [← hr]; exact hjeq)⟩
      rw [hSeq, ← hr]
      simp [Storage.get, hconn]

/-- C7, witness: `set("a", 7)` on the fresh store returns 7, and `get`
reads the same 7 back. -/
theorem c7_witness :
    Storage.get sevenStore ["a"] 0 = .ok (.num 7) ∧
    ((.num 7 : JSON) = .num 7 ∨ jsonEq (.num 7) (.num 7) = true) :=
  c7_set_then_get Storage.fresh sevenStore ["a"] (.num 7) (.num 7) true 0
    rfl (by decide) rfl rfl rfl

/-! ### Claim C8 -/

/-- C8 (confirmed): `close()` (with or without a final leader flush) and
`destroy()` both leave the terminal state: `closed` is set, the data tree
and expiry index are emptied, and every subsequent `set`, `get`, `has`,
`delete` or `sync` call fails immediately with the state error
(`checkState` throws before anything touches the emptied store, so the
store is left unchanged). -/
theorem c8_closed_terminal (S : Storage) (m : Bool) (p : List String) (v : JSON)
    (ttl now : Nat) (id : String) (events : List (Nat × String)) (file : Snapshot)
    (hconn : S.closed = false) :
    Storage.close S m =
      .ok (closedState S, if m then some (flushContent S) else none) ∧
    Storage.destroy S = .ok (closedState S, true) ∧
    (closedState S).closed = true ∧
    (closedState S).data = .obj [] ∧
    (closedState S).lives = [] ∧
    Storage.set (closedState S) p v ttl now = .error () ∧
    Storage.get (closedState S) p now = .error () ∧
    Storage.has (closedState S) p now = .error () ∧
    Storage.delete (closedState S) p = .error () ∧
    Storage.sync (closedState S) id events file = .error () := by
  refine ⟨by simp [Storage.close, hconn], by simp [Storage.destroy, hconn],
    rfl, rfl, rfl, rfl, rfl, rfl, rfl, rfl⟩

/-- C8, witness: closing the sample store as leader, then exercising every
operation on the closed state. -/
theorem c8_witness :
    Storage.close sampleOne true =
      .ok (closedState sampleOne, if true then some (flushContent sampleOne) else none) ∧
    Storage.destroy sampleOne = .ok (closedState sampleOne, true) ∧
    (closedState sampleOne).closed = true ∧
    (closedState sampleOne).data = .obj [] ∧
    (closedState sampleOne).lives = [] ∧
    Storage.set (closedState sampleOne) ["a"] (.num 1) 0 0 = .error () ∧
    Storage.get (closedState sampleOne) ["a"] 0 = .error () ∧
    Storage.has (closedState sampleOne) ["a"] 0 = .error () ∧
    Storage.delete (closedState sampleOne) ["a"] = .error () ∧
    Storage.sync (closedState sampleOne) "i" [] snapY = .error () :=
  c8_closed_terminal sampleOne true ["a"] (.num 1) 0 0 "i" [] snapY rfl

/-! ### Claim C9 -/

/-- C9 (confirmed): the value tree and the flat expiry index diverge.
For a TTL-carrying entry at a descendant path `q = p ++ r`, `delete(p)`
removes the subtree at `p` and the expiry under the key `p` itself but
leaves the expiry under `q`; a later `set(q, v, 0)` (non-null `v`) writes
`v` into the tree while the stale expiry remains, and once that expiry
has passed, `get(q)` returns `null` and `has(q)` is `false` although the
freshly written permanent value still sits in the tree. -/
theorem c9_index_divergence (S S₁ S₂ : Storage) (p r q : List String)
    (v rv : JSON) (b b2 : Bool) (e now1 now2 : Nat)
    (hq : q = p ++ r) (hp : p ≠ []) (hr : r ≠ [])
    (hconn : S.closed = false) (hobj : isObjB S.data = true)
    (hlq : lookupA S.lives q = some e) (he : e ≠ 0) (hnow : e ≤ now2)
    (hv : jsonEq v .null = false)
    (hdel : Storage.delete S p = .ok (S₁, b))
    (hset : Storage.set S₁ q v 0 now1 = .ok (S₂, rv, b2)) :
    lookupA S₁.lives p = none ∧
    lookupA S₁.lives q = some e ∧
    treeGet S₁.data q = none ∧
    treeGet S₂.data q = some v ∧
    lookupA S₂.lives q = some e ∧
    Storage.get S₂ q now2 = .ok .null ∧
    Storage.has S₂ q now2 = .ok false := by
  have hqne : q ≠ [] := by
    rw [hq]
    simp [hp]
  have hqp : q ≠ p := by
    rw [hq]
    intro hh
    have := congrArg List.length hh
    simp only [List.length_append] at this
    have : r.length = 0 := by omega
    exact hr (List.length_eq_zero.mp this)
  simp only [Storage.delete, hconn, Bool.false_eq_true, if_false,
    Except.ok.injEq, Prod.mk.injEq] at hdel
  obtain ⟨hS₁, hb⟩ := hdel
  have hl₁p : lookupA S₁.lives p = none := by
    rw [← hS₁]
    exact lookupA_removeA_self S.lives p
  have hl₁q : lookupA S₁.lives q = some e := by
    rw [← hS₁]
    show lookupA (removeA S.lives p) q = some e
    rw [lookupA_removeA_ne S.lives p q hqp]
    exact hlq
  have hd₁q : treeGet S₁.data q = none := by
    rw [← hS₁, hq]
    exact treeGet_treeUnset_prefix S.data p r hp
  have hobj₁ : isObjB S₁.data = true := by
    rw [← hS₁]
    exact isObjB_treeUnset S.data p hobj
  have hcl₁ : S₁.closed = false := by rw [← hS₁]; exact hconn
  obtain ⟨fs₁, hfs₁⟩ : ∃ fs, S₁.data = .obj fs := by
    cases hd : S₁.data <;> simp [hd, isObjB] at hobj₁ ⊢
  have hold : getCore S₁ q now1 = .null := by
    simp [getCore, hd₁q]
  have hdiff : isDifferent v (getCore S₁ q now1) = true := by
    rw [hold]
    simp [isDifferent, hv]
  simp only [Storage.set, hcl₁, Bool.false_eq_true, if_false,
    Except.ok.injEq] at hset
  simp only [setCore, ne_eq, not_true_eq_false, if_false, ite_false,
    reduceIte] at hset
  rw [if_pos (Or.inr hdiff)] at hset
  simp only [Prod.mk.injEq] at hset
  obtain ⟨hS₂, hrv, hb₂⟩ := hset
  have hd₂ : S₂.data = treeSet S₁.data q v := by rw [← hS₂]
  have hl₂ : S₂.lives = S₁.lives := by rw [← hS₂]
  have hcl₂ : S₂.closed = false := by rw [← hS₂]; exact hcl₁
  have hget₂ : treeGet S₂.data q = some v := by
    rw [hd₂, hfs₁]
    exact treeGet_treeSet_self fs₁ q v hqne
  have hl₂q : lookupA S₂.lives q = some e := by rw [hl₂]; exact hl₁q
  have hnotlt : ¬ now2 < e := Nat.not_lt.mpr hnow
  have hlc : liveCheck S₂.lives q now2 = false := by
    simp [liveCheck, hl₂q, he, hnotlt]
  refine ⟨hl₁p, hl₁q, hd₁q, hget₂, hl₂q, ?_, ?_⟩
  · simp [Storage.get, hcl₂, getCore, hlc]
  · simp [Storage.has, hcl₂, hasCore, hlc]

/-- C9, witness: the concrete `stageA → stageB → stageC` scenario with
`p = b`, `q = b.g`, expiry 1000 and the write at time 2000. -/
theorem c9_witness :
    lookupA stageB.lives ["b"] = none ∧
    lookupA stageB.lives ["b", "g"] = some 1000 ∧
    treeGet stageB.data ["b", "g"] = none ∧
    treeGet stageC.data ["b", "g"] = some (.str "Yo") ∧
    lookupA stageC.lives ["b", "g"] = some 1000 ∧
    Storage.get stageC ["b", "g"] 2000 = .ok .null ∧
    Storage.has stageC ["b", "g"] 2000 = .ok false :=
  c9_index_divergence stageA stageB stageC ["b"] ["g"] ["b", "g"]
    (.str "Yo") .null true true 1000 2000 2000
    rfl (by decide) (by decide) rfl rfl rfl (by decide) (by decide) rfl rfl rfl

/-! ### Claim C10 -/

/-- C10 (confirmed): `close()` detaches only the `private:set` listener
(`removeAllListeners("private:set")`, src/index.ts line 217); the
`private:delete` and `private:sync` listeners remain attached.  The
`private:sync` handler checks only leadership — not the closed state — so
a closed process that is currently the leader and receives a sync-request
still flushes its already-emptied in-memory store to the snapshot file,
overwriting it with an empty tree and empty expiry index, and emits the
`private:finishSync` response with the request's id. -/
theorem c10_close_leaves_listeners (S Sc : Storage) (m : Bool)
    (f : Option Snapshot) (reqId : String)
    (hconn : S.closed = false)
    (hd : S.hasDeleteListener = true) (hs : S.hasSyncListener = true)
    (hclose : Storage.close S m = .ok (Sc, f)) :
    Sc.hasSetListener = false ∧
    Sc.hasDeleteListener = true ∧
    Sc.hasSyncListener = true ∧
    Sc.closed = true ∧
    Sc.data = .obj [] ∧
    Sc.lives = [] ∧
    onSyncRequest Sc true reqId =
      some ({ data := .obj [], lives := [] }, reqId) := by
  simp only [Storage.close, hconn, Bool.false_eq_true, if_false,
    Except.ok.injEq, Prod.mk.injEq] at hclose
  obtain ⟨hSc, hf⟩ := hclose
  subst hSc
  refine ⟨rfl, hd, hs, rfl, rfl, rfl, ?_⟩
  simp [onSyncRequest, closedState, hs, flushContent]

/-- C10, witness: closing the sample store and delivering a sync-request
to the closed leader. -/
theorem c10_witness :
    (closedState sampleOne).hasSetListener = false ∧
    (closedState sampleOne).hasDeleteListener = true ∧
    (closedState sampleOne).hasSyncListener = true ∧
    (closedState sampleOne).closed = true ∧
    (closedState sampleOne).data = .obj [] ∧
    (closedState sampleOne).lives = [] ∧
    onSyncRequest (closedState sampleOne) true "r" =
      some ({ data := .obj [], lives := [] }, "r") :=
  c10_close_leaves_listeners sampleOne (closedState sampleOne) true
    (some (flushContent sampleOne)) "r" rfl rfl rfl rfl

end ClusterStorage
